import Mathlib

set_option maxHeartbeats 1000000

/-!
Verification development for the KPI Scorecard data pipeline.

Shallow embedding conventions:
* JS numbers are modelled as rationals (the arithmetic the pipeline performs is
  exact on its inputs); counts are naturals cast into the rationals.
* JS Date values are modelled as integer timestamps; Date comparison operators
  compare timestamps, and a Date object is always truthy.
* Nullable / optional JS strings are modelled as Option String.
* Lists stand for JS arrays, in order.
-/

/-- JS whitespace test (String.prototype.trim and the character class of the
whitespace regex), modelled by Char.isWhitespace. -/
def isWs (c : Char) : Bool := c.isWhitespace

/-- List-of-chars form of JS String.prototype.trim: drop leading and trailing
whitespace. -/
def jsTrimData (l : List Char) : List Char :=
  ((l.dropWhile isWs).reverse.dropWhile isWs).reverse

/-- Core of the global whitespace-run replacement in normalizeTechnicianName:
each maximal whitespace run becomes one space. The Boolean flag records whether
the previous character was whitespace. -/
def collapseAux : List Char → Bool → List Char
  | [], _ => []
  | c :: cs, prevWs =>
    if isWs c then
      if prevWs then collapseAux cs true else ' ' :: collapseAux cs true
    else c :: collapseAux cs false

/-- The expression name.trim() followed by the collapse of every internal
whitespace run to a single space, from normalizeTechnicianName. -/
def normalizeWsData (l : List Char) : List Char :=
  collapseAux (jsTrimData l) false

/-- String form of normalizeWsData. -/
def normalizeWs (s : String) : String := ⟨normalizeWsData s.data⟩

/-- The fixed nameMap alias table from normalizeTechnicianName, in source order. -/
def aliasTable : List (String × String) :=
  [("Aaron M", "Aaron McDaniel"),
   ("Aaron", "Aaron McDaniel"),
   ("Jake H", "Jake Harter"),
   ("Jake", "Jake Harter"),
   ("Steven S", "Steven Springer"),
   ("Steven", "Steven Springer"),
   ("Colin M", "Colin Myers"),
   ("Colin", "Colin Myers"),
   ("Brennan E", "Brennan Ebbesmier"),
   ("Brennan", "Brennan Ebbesmier"),
   ("Justice B", "Justice Burns"),
   ("Justice", "Justice Burns"),
   ("Alex P", "Alex P")]

/-- normalizeTechnicianName from src/utils/formatters. null/undefined and the
empty string are falsy and yield the sentinel; otherwise trim, collapse
whitespace runs to single spaces, and look the result up in the alias table.
The source returns the looked-up value or, when the lookup misses, the
normalized form itself; every table value is a non-empty string, so the JS
or-else on the lookup is exactly getD. -/
def normalizeTechnicianName (name : Option String) : String :=
  match name with
  | none => "Unknown Technician"
  | some s =>
    if s = "" then "Unknown Technician"
    else
      let normalized := normalizeWs s
      (aliasTable.lookup normalized).getD normalized

/-- Value of a digit run, most significant digit first. -/
def digitsToNat (l : List Char) : Nat :=
  l.foldl (fun a c => 10 * a + (c.toNat - 48)) 0

/-- Model of JS parseInt(s, 10): skip leading whitespace, optional sign, then a
maximal digit run; none models NaN (no digits found). -/
def jsParseInt (s : String) : Option Int :=
  match s.data.dropWhile isWs with
  | '-' :: r =>
    if r.takeWhile Char.isDigit = [] then none
    else some (-(digitsToNat (r.takeWhile Char.isDigit) : Int))
  | '+' :: r =>
    if r.takeWhile Char.isDigit = [] then none
    else some ((digitsToNat (r.takeWhile Char.isDigit) : Int))
  | l =>
    if l.takeWhile Char.isDigit = [] then none
    else some ((digitsToNat (l.takeWhile Char.isDigit) : Int))

/-- Value of a fractional digit run placed after the decimal point. -/
def fracVal (l : List Char) : ℚ := (digitsToNat l : ℚ) / ((10 : ℚ) ^ l.length)

/-- Unsigned part of the host parseFloat on the decimal forms this pipeline
sees: maximal digit run, optional point and fraction run; none models NaN
(no digit at all). -/
def jsParseFloatCore (l : List Char) : Option ℚ :=
  let intPart := l.takeWhile Char.isDigit
  let rest := l.dropWhile Char.isDigit
  let fracPart := match rest with
    | '.' :: r => r.takeWhile Char.isDigit
    | _ => []
  if intPart = [] ∧ fracPart = [] then none
  else some ((digitsToNat intPart : ℚ) + fracVal fracPart)

/-- Model of the host parseFloat: leading whitespace, optional sign, then the
unsigned decimal form. -/
def jsParseFloat (s : String) : Option ℚ :=
  match s.data.dropWhile isWs with
  | '-' :: r => (jsParseFloatCore r).map (fun q => -q)
  | '+' :: r => jsParseFloatCore r
  | l => jsParseFloatCore l

/-- The global removal of dollar signs and commas in parseCurrency. -/
def stripCurrencySymbols (s : String) : String :=
  ⟨s.data.filter (fun c => !(c == '$' || c == ','))⟩

/-- parseCurrency from src/utils/formatters: falsy input yields 0; otherwise
strip currency symbols and parse, with the JS or-else collapsing both NaN and
a parsed 0 to 0 (so an unparsable string yields exactly 0). -/
def parseCurrency (currencyString : Option String) : ℚ :=
  match currencyString with
  | none => 0
  | some s =>
    if s = "" then 0
    else match jsParseFloat (stripCurrencySymbols s) with
      | none => 0
      | some q => q

/-- The global removal of percent signs and whitespace in parsePercentage. -/
def stripPercentChars (s : String) : String :=
  ⟨s.data.filter (fun c => !(c == '%' || isWs c))⟩

/-- parsePercentage from src/utils/formatters. -/
def parsePercentage (percentageString : Option String) : ℚ :=
  match percentageString with
  | none => 0
  | some s =>
    if s = "" then 0
    else match jsParseFloat (stripPercentChars s) with
      | none => 0
      | some q => q

/-- Try to match the duration pattern (digits, the letter h, optional
whitespace, digits, the letter m) anchored at the head of the text. -/
def timeMatchAt (l : List Char) : Option (Nat × Nat) :=
  let d1 := l.takeWhile Char.isDigit
  if d1 = [] then none
  else match l.dropWhile Char.isDigit with
    | 'h' :: r1 =>
      let r2 := r1.dropWhile isWs
      let d2 := r2.takeWhile Char.isDigit
      if d2 = [] then none
      else match r2.dropWhile Char.isDigit with
        | 'm' :: _ => some (digitsToNat d1, digitsToNat d2)
        | _ => none
    | _ => none

/-- Leftmost match of the duration pattern anywhere in the text, the way a
regex match scans the subject. -/
def timeSearch : List Char → Option (Nat × Nat)
  | [] => none
  | c :: cs => match timeMatchAt (c :: cs) with
    | some p => some p
    | none => timeSearch cs

/-- parseTimeToMinutes from src/utils/formatters: falsy input or no match
yields 0, a match yields hours times sixty plus minutes. -/
def parseTimeToMinutes (timeString : Option String) : ℚ :=
  match timeString with
  | none => 0
  | some s =>
    if s = "" then 0
    else match timeSearch s.data with
      | some (h, m) => (h : ℚ) * 60 + (m : ℚ)
      | none => 0

/-- A raw spreadsheet cell as the row parsers see it: a native number, a
string, or an absent cell. -/
inductive CellVal where
  | num (q : ℚ)
  | str (s : String)
  | missing
deriving DecidableEq

/-- The JS or-else of parseInt with 1: NaN and a parsed 0 both yield 1. -/
def parseIntOrOne (s : String) : ℚ :=
  match jsParseInt s with
  | none => 1
  | some n => if n = 0 then 1 else (n : ℚ)

/-- The Quantity expression of parseLineItemsFile: a native number passes
through, anything else is stringified and parsed with fallback 1. The JS
stringification of an absent cell is the text of the word undefined, which has
no digits. -/
def lineItemQuantity : CellVal → ℚ
  | CellVal.num q => q
  | CellVal.str s => parseIntOrOne s
  | CellVal.missing => parseIntOrOne "undefined"

/-- ASCII lowercasing, the fragment of toLowerCase the keyword lists use. -/
def jsToLower (s : String) : String := ⟨s.data.map Char.toLower⟩

/-- Contiguous-substring test on character lists (String.prototype.includes). -/
def hasSubList (pat : List Char) : List Char → Bool
  | [] => pat.isEmpty
  | c :: cs => pat.isPrefixOf (c :: cs) || hasSubList pat cs

/-- containsServiceKeywords from src/utils/formatters: falsy line item text is
false, otherwise a case-insensitive substring match against any keyword. -/
def containsServiceKeywords (lineItem : Option String) (keywords : List String) : Bool :=
  match lineItem with
  | none => false
  | some s =>
    if s = "" then false
    else keywords.any (fun keyword => hasSubList (jsToLower keyword).data (jsToLower s).data)

/-- getHydroJettingKeywords from src/utils/formatters. -/
def getHydroJettingKeywords : List String :=
  ["hydro", "jetting", "high pressure", "pressure wash"]

/-- getDescalingKeywords from src/utils/formatters. -/
def getDescalingKeywords : List String :=
  ["descal", "scale removal", "cast iron pipe descaling", "descaling"]

/-- getWaterHeaterKeywords from src/utils/formatters. -/
def getWaterHeaterKeywords : List String :=
  ["water heater", "hot water", "heater install", "heater replacement"]

/-- ProcessedOpportunity from src/types; the date is an integer timestamp. -/
structure ProcessedOpportunity where
  date : Int
  jobId : String
  customer : String
  email : String
  phone : String
  status : String
  technician : String
  membershipOpportunity : Bool
  membershipSold : Bool
  revenue : ℚ
deriving DecidableEq

/-- ProcessedLineItem from src/types. -/
structure ProcessedLineItem where
  invoiceDate : Int
  customer : String
  jobId : String
  technician : String
  category : String
  lineItem : String
  quantity : ℚ
  price : ℚ
deriving DecidableEq

/-- ProcessedJobTime from src/types. -/
structure ProcessedJobTime where
  firstAppointment : Int
  jobId : String
  jobStatus : String
  customer : String
  technician : String
  opportunity : String
  total : ℚ
  totalTime : ℚ
  soldTime : ℚ
  jobEfficiency : ℚ
deriving DecidableEq

/-- ProcessedAppointment from src/types. -/
structure ProcessedAppointment where
  appointmentId : String
  scheduledFor : Int
  jobId : String
  customer : String
  apptStatus : String
  technician : String
  serviceCategory : String
  revenue : ℚ
deriving DecidableEq

/-- TechnicianKPIs from src/types. -/
structure TechnicianKPIs where
  technician : String
  averageTicketValue : ℚ
  jobCloseRate : ℚ
  weeklyRevenue : ℚ
  jobEfficiency : ℚ
  membershipWinRate : ℚ
  hydroJettingJobsSold : ℚ
  descalingJobsSold : ℚ
  waterHeaterJobsSold : ℚ
deriving DecidableEq

/-- cleanOpportunitiesData from the integrator. The truthiness test on the
date field of a processed record is a test on a Date object, which is always
truthy in JS, so only the two string identity fields can reject. -/
def cleanOpportunitiesData (opportunities : List ProcessedOpportunity) : List ProcessedOpportunity :=
  opportunities.filter fun opp =>
    if opp.jobId = "" ∨ opp.technician = "" then false
    else if opp.revenue < 0 then false
    else true

/-- cleanLineItemsData from the integrator. -/
def cleanLineItemsData (lineItems : List ProcessedLineItem) : List ProcessedLineItem :=
  lineItems.filter fun item =>
    if item.jobId = "" ∨ item.technician = "" then false
    else if item.price < 0 then false
    else if item.quantity ≤ 0 then false
    else true

/-- cleanJobTimesData from the integrator. -/
def cleanJobTimesData (jobTimes : List ProcessedJobTime) : List ProcessedJobTime :=
  jobTimes.filter fun job =>
    if job.jobId = "" ∨ job.technician = "" then false
    else if job.jobEfficiency < 0 ∨ job.jobEfficiency > 100 then false
    else true

/-- cleanAppointmentsData from the integrator. -/
def cleanAppointmentsData (appointments : List ProcessedAppointment) : List ProcessedAppointment :=
  appointments.filter fun appt =>
    if appt.jobId = "" ∨ appt.technician = "" then false
    else if appt.revenue < 0 then false
    else true

/-- Add a name to the accumulated list the way a JS Set does: keep the first
occurrence order, skip names already present. -/
def insertUnique (acc : List String) (n : String) : List String :=
  if n ∈ acc then acc else acc ++ [n]

/-- Contents of a JS Set built by inserting the list elements in order. -/
def setInsertionOrder (l : List String) : List String :=
  l.foldl insertUnique []

/-- Lexicographic comparison of character lists by code point, the order the
default JS array sort applies to strings. -/
def charListLt : List Char → List Char → Bool
  | _, [] => false
  | [], _ :: _ => true
  | a :: as, b :: bs => if a == b then charListLt as bs else decide (a < b)

/-- The string order of the default JS array sort. -/
def strLt (a b : String) : Bool := charListLt a.data b.data

/-- Insert a string into an already sorted list, keeping it sorted by the
string order the default JS array sort uses. -/
def insertSorted (s : String) : List String → List String
  | [] => [s]
  | x :: xs => if strLt x s then x :: insertSorted s xs else s :: x :: xs

/-- Sort a list of strings (model of the default JS array sort on strings). -/
def sortStrings (l : List String) : List String := l.foldr insertSorted []

/-- extractTechnicianNames from the integrator: Set union of the technician
field across the four sources in source order, then sorted. -/
def extractTechnicianNames (opportunities : List ProcessedOpportunity)
    (lineItems : List ProcessedLineItem) (jobTimes : List ProcessedJobTime)
    (appointments : List ProcessedAppointment) : List String :=
  sortStrings (setInsertionOrder
    (opportunities.map (·.technician) ++ lineItems.map (·.technician) ++
     jobTimes.map (·.technician) ++ appointments.map (·.technician)))

/-- extractJobIds from the integrator. -/
def extractJobIds (opportunities : List ProcessedOpportunity)
    (lineItems : List ProcessedLineItem) (jobTimes : List ProcessedJobTime)
    (appointments : List ProcessedAppointment) : List String :=
  sortStrings (setInsertionOrder
    (opportunities.map (·.jobId) ++ lineItems.map (·.jobId) ++
     jobTimes.map (·.jobId) ++ appointments.map (·.jobId)))

/-- UploadedFiles from src/types. A present file handle is represented by the
row list its parser produces (the spreadsheet decoding itself is I/O and is
out of the embedded core); an absent handle is none. -/
structure UploadedFiles where
  opportunities : Option (List ProcessedOpportunity)
  lineItems : Option (List ProcessedLineItem)
  jobTimes : Option (List ProcessedJobTime)
  appointments : Option (List ProcessedAppointment)

/-- IntegratedData from the integrator. -/
structure IntegratedData where
  opportunities : List ProcessedOpportunity
  lineItems : List ProcessedLineItem
  jobTimes : List ProcessedJobTime
  appointments : List ProcessedAppointment
  technicianNames : List String
  jobIds : List String

/-- processAndIntegrateFiles from the integrator: an absent file handle yields
the empty record set for its source, each parsed set is cleaned independently,
and the distinct technician names and job ids are extracted across all four
cleaned sets. -/
def processAndIntegrateFiles (files : UploadedFiles) : IntegratedData :=
  let opportunities := files.opportunities.getD []
  let lineItems := files.lineItems.getD []
  let jobTimes := files.jobTimes.getD []
  let appointments := files.appointments.getD []
  let cleanedOpportunities := cleanOpportunitiesData opportunities
  let cleanedLineItems := cleanLineItemsData lineItems
  let cleanedJobTimes := cleanJobTimesData jobTimes
  let cleanedAppointments := cleanAppointmentsData appointments
  { opportunities := cleanedOpportunities
    lineItems := cleanedLineItems
    jobTimes := cleanedJobTimes
    appointments := cleanedAppointments
    technicianNames := extractTechnicianNames cleanedOpportunities cleanedLineItems
      cleanedJobTimes cleanedAppointments
    jobIds := extractJobIds cleanedOpportunities cleanedLineItems
      cleanedJobTimes cleanedAppointments }

/-- isDateInWeekRange from src/utils/dateHelpers: a closed interval test on
the timestamps. -/
def isDateInWeekRange (date weekStart weekEnd : Int) : Bool :=
  decide (weekStart ≤ date) && decide (date ≤ weekEnd)

/-- The opportunity filter at the top of calculateTechnicianKPIs. -/
def filterTechOpportunities (technician : String)
    (opportunities : List ProcessedOpportunity) (weekStart weekEnd : Int) :
    List ProcessedOpportunity :=
  opportunities.filter fun opp =>
    opp.technician == technician && isDateInWeekRange opp.date weekStart weekEnd

/-- The line item filter at the top of calculateTechnicianKPIs. -/
def filterTechLineItems (technician : String)
    (lineItems : List ProcessedLineItem) (weekStart weekEnd : Int) :
    List ProcessedLineItem :=
  lineItems.filter fun item =>
    item.technician == technician && isDateInWeekRange item.invoiceDate weekStart weekEnd

/-- The job time filter at the top of calculateTechnicianKPIs. -/
def filterTechJobTimes (technician : String)
    (jobTimes : List ProcessedJobTime) (weekStart weekEnd : Int) :
    List ProcessedJobTime :=
  jobTimes.filter fun job =>
    job.technician == technician && isDateInWeekRange job.firstAppointment weekStart weekEnd

/-- The appointment filter at the top of calculateTechnicianKPIs. -/
def filterTechAppointments (technician : String)
    (appointments : List ProcessedAppointment) (weekStart weekEnd : Int) :
    List ProcessedAppointment :=
  appointments.filter fun appt =>
    appt.technician == technician && isDateInWeekRange appt.scheduledFor weekStart weekEnd

/-- calculateAverageTicketValue from the KPI calculator: total revenue of the
filtered records of both revenue sources divided by the completed-jobs count,
with an early 0 when that count is 0. -/
def calculateAverageTicketValue (opportunities : List ProcessedOpportunity)
    (appointments : List ProcessedAppointment) : ℚ :=
  let completedJobs := (opportunities.filter (fun opp => opp.status == "Won")).length +
                       (appointments.filter (fun appt => appt.apptStatus == "Completed")).length
  if completedJobs = 0 then 0
  else
    let totalRevenue := opportunities.foldl (fun sum opp => sum + opp.revenue) 0 +
                        appointments.foldl (fun sum appt => sum + appt.revenue) 0
    totalRevenue / (completedJobs : ℚ)

/-- calculateJobCloseRate from the KPI calculator. -/
def calculateJobCloseRate (opportunities : List ProcessedOpportunity) : ℚ :=
  if opportunities.length = 0 then 0
  else
    let wonJobs := (opportunities.filter (fun opp => opp.status == "Won")).length
    ((wonJobs : ℚ) / (opportunities.length : ℚ)) * 100

/-- calculateWeeklyRevenue from the KPI calculator. -/
def calculateWeeklyRevenue (opportunities : List ProcessedOpportunity)
    (appointments : List ProcessedAppointment) : ℚ :=
  let opportunitiesRevenue := opportunities.foldl (fun sum opp => sum + opp.revenue) 0
  let appointmentsRevenue := appointments.foldl (fun sum appt => sum + appt.revenue) 0
  opportunitiesRevenue + appointmentsRevenue

/-- calculateJobEfficiency from the KPI calculator: only strictly positive
efficiencies enter the average. -/
def calculateJobEfficiency (jobTimes : List ProcessedJobTime) : ℚ :=
  let validEfficiencies := (jobTimes.filter (fun job => 0 < job.jobEfficiency)).map (·.jobEfficiency)
  if validEfficiencies.length = 0 then 0
  else validEfficiencies.foldl (fun total efficiency => total + efficiency) 0 /
    (validEfficiencies.length : ℚ)

/-- calculateMembershipWinRate from the KPI calculator. -/
def calculateMembershipWinRate (opportunities : List ProcessedOpportunity) : ℚ :=
  let membershipOpportunities := opportunities.filter (fun opp => opp.membershipOpportunity)
  if membershipOpportunities.length = 0 then 0
  else
    let membershipsSold := (membershipOpportunities.filter (fun opp => opp.membershipSold)).length
    ((membershipsSold : ℚ) / (membershipOpportunities.length : ℚ)) * 100

/-- calculateHydroJettingJobsSold from the KPI calculator. -/
def calculateHydroJettingJobsSold (lineItems : List ProcessedLineItem) : ℚ :=
  ((lineItems.filter (fun item =>
    containsServiceKeywords (some item.lineItem) getHydroJettingKeywords)).length : ℚ)

/-- calculateDescalingJobsSold from the KPI calculator. -/
def calculateDescalingJobsSold (lineItems : List ProcessedLineItem) : ℚ :=
  ((lineItems.filter (fun item =>
    containsServiceKeywords (some item.lineItem) getDescalingKeywords)).length : ℚ)

/-- calculateWaterHeaterJobsSold from the KPI calculator. -/
def calculateWaterHeaterJobsSold (lineItems : List ProcessedLineItem) : ℚ :=
  ((lineItems.filter (fun item =>
    containsServiceKeywords (some item.lineItem) getWaterHeaterKeywords)).length : ℚ)

/-- calculateTechnicianKPIs from the KPI calculator: filter the four cleaned
collections to the technician and the closed week interval, then compute the
eight metrics. -/
def calculateTechnicianKPIs (technician : String)
    (opportunities : List ProcessedOpportunity) (lineItems : List ProcessedLineItem)
    (jobTimes : List ProcessedJobTime) (appointments : List ProcessedAppointment)
    (weekStart weekEnd : Int) : TechnicianKPIs :=
  let techOpportunities := filterTechOpportunities technician opportunities weekStart weekEnd
  let techLineItems := filterTechLineItems technician lineItems weekStart weekEnd
  let techJobTimes := filterTechJobTimes technician jobTimes weekStart weekEnd
  let techAppointments := filterTechAppointments technician appointments weekStart weekEnd
  { technician := technician
    averageTicketValue := calculateAverageTicketValue techOpportunities techAppointments
    jobCloseRate := calculateJobCloseRate techOpportunities
    weeklyRevenue := calculateWeeklyRevenue techOpportunities techAppointments
    jobEfficiency := calculateJobEfficiency techJobTimes
    membershipWinRate := calculateMembershipWinRate techOpportunities
    hydroJettingJobsSold := calculateHydroJettingJobsSold techLineItems
    descalingJobsSold := calculateDescalingJobsSold techLineItems
    waterHeaterJobsSold := calculateWaterHeaterJobsSold techLineItems }

/-- calculateAllTechnicianKPIs from the KPI calculator: the technician
universe is a JS Set filled from the four sources in source order, and the
result is that insertion-order list mapped through the per-technician
computation. -/
def calculateAllTechnicianKPIs (opportunities : List ProcessedOpportunity)
    (lineItems : List ProcessedLineItem) (jobTimes : List ProcessedJobTime)
    (appointments : List ProcessedAppointment) (weekStart weekEnd : Int) :
    List TechnicianKPIs :=
  let technicianNames := setInsertionOrder
    (opportunities.map (·.technician) ++ lineItems.map (·.technician) ++
     jobTimes.map (·.technician) ++ appointments.map (·.technician))
  technicianNames.map fun technician =>
    calculateTechnicianKPIs technician opportunities lineItems jobTimes appointments
      weekStart weekEnd

/-- Negation of the whitespace test, for stating which characters survive
normalization. -/
def nonWs (c : Char) : Bool := !isWs c

/-- The head of the character list, when present, is not whitespace. -/
def HeadOk (l : List Char) : Prop := ∀ c, l.head? = some c → isWs c = false

/-- The last character of the list, when present, is not whitespace. -/
def LastOk (l : List Char) : Prop := ∀ c, l.getLast? = some c → isWs c = false

/-- Every whitespace character in the list is a plain space and is not
followed by another whitespace character: internal runs are single spaces. -/
def RunsOk : List Char → Prop
  | [] => True
  | [c] => isWs c = true → c = ' '
  | c :: d :: rest => (isWs c = true → c = ' ' ∧ isWs d = false) ∧ RunsOk (d :: rest)

/-- Test fixture: an opportunity record with the given technician. -/
def sampleOpportunity (technician : String) : ProcessedOpportunity :=
  { date := 0, jobId := "J1", customer := "C", email := "", phone := "",
    status := "Won", technician := technician,
    membershipOpportunity := false, membershipSold := false, revenue := 0 }

/-- Test fixture: a job-time record with the given efficiency. -/
def sampleJobTime (efficiency : ℚ) : ProcessedJobTime :=
  { firstAppointment := 0, jobId := "J1", jobStatus := "Completed", customer := "C",
    technician := "T", opportunity := "Won", total := 0, totalTime := 0,
    soldTime := 0, jobEfficiency := efficiency }

/-- Test fixture: an appointment record with the given technician. -/
def sampleAppointment (technician : String) : ProcessedAppointment :=
  { appointmentId := "A1", scheduledFor := 0, jobId := "J2", customer := "C",
    apptStatus := "Completed", technician := technician,
    serviceCategory := "S", revenue := 0 }

/-- Test fixture: a line item record with the given technician. -/
def sampleLineItem (technician : String) : ProcessedLineItem :=
  { invoiceDate := 0, customer := "C", jobId := "J3", technician := technician,
    category := "Cat", lineItem := "Hydro Jetting Service", quantity := 1, price := 0 }

/-- Test fixture: an upload in which only the line items file is present. -/
def sampleFilesMissingOpps : UploadedFiles :=
  { opportunities := none, lineItems := some [sampleLineItem "Only In LineItems"],
    jobTimes := none, appointments := none }

example : normalizeTechnicianName (some "Aaron") = "Aaron McDaniel" := by decide
example : normalizeTechnicianName (some "  Jake   H ") = "Jake Harter" := by decide
example : normalizeTechnicianName (some " ") = "" := by decide
example : timeSearch ("4h 48m (288 mins)").data = some (4, 48) := by decide
example : parseCurrency (some "abc") = 0 := by rfl
example : lineItemQuantity (CellVal.str "0") = 1 := by rfl
example : jsParseInt "12abc" = some 12 := by rfl

/-- Folding an accumulating sum equals the starting value plus the sum of the
mapped list; this is the shape of every revenue reduce in the calculator. -/
theorem foldl_add_map {α : Type} (f : α → ℚ) :
    ∀ (l : List α) (a : ℚ), l.foldl (fun s x => s + f x) a = a + (l.map f).sum := by
  intro l
  induction l with
  | nil => intro a; simp
  | cons x xs ih =>
    intro a
    simp only [List.foldl_cons, List.map_cons, List.sum_cons, ih]
    ring

/-- An empty list has a whitespace-free head. -/
theorem headOk_nil : HeadOk [] := by
  intro c h
  simp at h

/-- A list headed by a non-whitespace character has a whitespace-free head. -/
theorem headOk_cons {c : Char} {cs : List Char} (h : isWs c = false) : HeadOk (c :: cs) := by
  intro d hd
  simp only [List.head?_cons, Option.some.injEq] at hd
  exact hd ▸ h

/-- Dropping the leading whitespace leaves a whitespace-free head. -/
theorem headOk_dropWhile (l : List Char) : HeadOk (List.dropWhile isWs l) := by
  induction l with
  | nil => exact headOk_nil
  | cons c cs ih =>
    by_cases hw : isWs c
    · simpa [List.dropWhile_cons, hw] using ih
    · simp only [List.dropWhile_cons, hw, if_false]
      exact headOk_cons (by simpa using hw)

/-- A prefix of a list with a whitespace-free head has a whitespace-free head. -/
theorem headOk_prefix_closed {m l : List Char} (h : m <+: l) (hl : HeadOk l) : HeadOk m := by
  intro c hc
  cases m with
  | nil => simp at hc
  | cons a t =>
    simp only [List.head?_cons, Option.some.injEq] at hc
    obtain ⟨s, hs⟩ := h
    apply hl c
    rw [← hs, ← hc]
    simp

/-- The trimmed list is a prefix of the left-trimmed list. -/
theorem trim_prefix_drop (l : List Char) :
    jsTrimData l <+: List.dropWhile isWs l := by
  unfold jsTrimData
  have h1 : List.dropWhile isWs (List.dropWhile isWs l).reverse <:+
      (List.dropWhile isWs l).reverse := List.dropWhile_suffix _
  have h2 := List.reverse_prefix.mpr h1
  rwa [List.reverse_reverse] at h2

/-- Trimming leaves a whitespace-free head. -/
theorem headOk_jsTrim (l : List Char) : HeadOk (jsTrimData l) :=
  headOk_prefix_closed (trim_prefix_drop l) (headOk_dropWhile l)

/-- Trimming leaves a whitespace-free last character. -/
theorem lastOk_jsTrim (l : List Char) : LastOk (jsTrimData l) := by
  intro c hc
  unfold jsTrimData at hc
  rw [List.getLast?_reverse] at hc
  exact headOk_dropWhile _ c hc

/-- The tail of a list with a whitespace-free last character also has one. -/
theorem lastOk_tail {c : Char} {cs : List Char} (h : LastOk (c :: cs)) : LastOk cs := by
  cases cs with
  | nil => intro d hd; simp at hd
  | cons e es =>
    intro d hd
    apply h d
    rw [List.getLast?_cons_cons]
    exact hd

/-- The tail of a run-canonical list is run-canonical. -/
theorem runsOk_tail {c : Char} {cs : List Char} (h : RunsOk (c :: cs)) : RunsOk cs := by
  cases cs with
  | nil => trivial
  | cons d ds => exact h.2

/-- Step equation: a whitespace head after whitespace is skipped. -/
theorem collapseAux_cons_ws_true {c : Char} {cs : List Char} (hw : isWs c = true) :
    collapseAux (c :: cs) true = collapseAux cs true := by
  simp [collapseAux, hw]

/-- Step equation: a whitespace head after non-whitespace emits one space. -/
theorem collapseAux_cons_ws_false {c : Char} {cs : List Char} (hw : isWs c = true) :
    collapseAux (c :: cs) false = ' ' :: collapseAux cs true := by
  simp [collapseAux, hw]

/-- Step equation: a non-whitespace head is kept. -/
theorem collapseAux_cons_nonws {c : Char} {cs : List Char} {b : Bool} (hw : isWs c = false) :
    collapseAux (c :: cs) b = c :: collapseAux cs false := by
  cases b <;> simp [collapseAux, hw]

/-- Whitespace collapse started in the after-whitespace state yields a
whitespace-free head. -/
theorem headOk_collapseAux_true : ∀ l : List Char, HeadOk (collapseAux l true) := by
  intro l
  induction l with
  | nil => exact headOk_nil
  | cons c cs ih =>
    by_cases hw : isWs c
    · simpa [collapseAux, hw] using ih
    · simp only [collapseAux, hw, Bool.false_eq_true, if_false]
      exact headOk_cons (by simpa using hw)

/-- Whitespace collapse preserves a whitespace-free head. -/
theorem headOk_collapseAux_false {l : List Char} (h : HeadOk l) :
    HeadOk (collapseAux l false) := by
  cases l with
  | nil => exact headOk_nil
  | cons c cs =>
    have hc : isWs c = false := h c (by simp)
    simp only [collapseAux, hc, Bool.false_eq_true, if_false]
    exact headOk_cons hc

/-- Whitespace collapse of a non-empty list with a whitespace-free last
character is non-empty. -/
theorem collapseAux_ne_nil : ∀ (l : List Char) (b : Bool),
    l ≠ [] → LastOk l → collapseAux l b ≠ [] := by
  intro l
  induction l with
  | nil => intro b h; exact absurd rfl h
  | cons c cs ih =>
    intro b _ hLast
    by_cases hw : isWs c
    · cases b with
      | false => rw [collapseAux_cons_ws_false hw]; simp
      | true =>
        rw [collapseAux_cons_ws_true hw]
        cases cs with
        | nil =>
          have := hLast c (by simp)
          rw [this] at hw
          exact absurd hw (by simp)
        | cons d ds =>
          exact ih true (by simp) (lastOk_tail hLast)
    · rw [collapseAux_cons_nonws (by simpa using hw)]; simp

/-- Whitespace collapse preserves a whitespace-free last character. -/
theorem lastOk_collapseAux : ∀ (l : List Char) (b : Bool),
    LastOk l → LastOk (collapseAux l b) := by
  intro l
  induction l with
  | nil => intro b _ d hd; simp [collapseAux] at hd
  | cons c cs ih =>
    intro b hLast
    by_cases hw : isWs c
    · cases b with
      | true =>
        rw [collapseAux_cons_ws_true hw]
        exact ih true (lastOk_tail hLast)
      | false =>
        rw [collapseAux_cons_ws_false hw]
        cases cs with
        | nil =>
          have := hLast c (by simp)
          rw [this] at hw
          exact absurd hw (by simp)
        | cons d ds =>
          have hne : collapseAux (d :: ds) true ≠ [] :=
            collapseAux_ne_nil (d :: ds) true (by simp) (lastOk_tail hLast)
          intro e he
          obtain ⟨r0, rs, hr⟩ := List.exists_cons_of_ne_nil hne
          rw [hr] at he
          rw [List.getLast?_cons_cons] at he
          have := ih true (lastOk_tail hLast)
          apply this e
          rw [hr]
          exact he
    · rw [collapseAux_cons_nonws (by simpa using hw)]
      intro e he
      cases hrc : collapseAux cs false with
      | nil =>
        rw [hrc] at he
        simp only [List.getLast?_singleton, Option.some.injEq] at he
        rw [← he]
        simpa using hw
      | cons r0 rs =>
        rw [hrc, List.getLast?_cons_cons] at he
        have := ih false (lastOk_tail hLast)
        apply this e
        rw [hrc]
        exact he

/-- The output of whitespace collapse has every whitespace as a single
space followed by a non-whitespace character or the end. -/
theorem runsOk_collapseAux : ∀ (l : List Char) (b : Bool), RunsOk (collapseAux l b) := by
  intro l
  induction l with
  | nil => intro b; trivial
  | cons c cs ih =>
    intro b
    by_cases hw : isWs c
    · cases b with
      | true =>
        rw [collapseAux_cons_ws_true hw]
        exact ih true
      | false =>
        rw [collapseAux_cons_ws_false hw]
        cases hrc : collapseAux cs true with
        | nil => intro h; rfl
        | cons d ds =>
          refine ⟨fun _ => ⟨rfl, ?_⟩, ?_⟩
          · exact headOk_collapseAux_true cs d (by rw [hrc]; simp)
          · rw [← hrc]; exact ih true
    · rw [collapseAux_cons_nonws (by simpa using hw)]
      cases hrc : collapseAux cs false with
      | nil => intro h; exact absurd h (by simpa using hw)
      | cons d ds =>
        refine ⟨fun h => absurd h (by simpa using hw), ?_⟩
        rw [← hrc]
        exact ih false

/-- On a canonical list, whitespace collapse is the identity. The flag may be
true only when the head is not whitespace. -/
theorem collapseAux_eq_self : ∀ (l : List Char) (b : Bool),
    RunsOk l → LastOk l → (b = true → HeadOk l) → collapseAux l b = l := by
  intro l
  induction l with
  | nil => intro b _ _ _; rfl
  | cons c cs ih =>
    intro b hRuns hLast hHead
    by_cases hw : isWs c
    · cases b with
      | true =>
        have := hHead rfl c (by simp)
        rw [this] at hw
        exact absurd hw (by simp)
      | false =>
        cases cs with
        | nil =>
          have := hLast c (by simp)
          rw [this] at hw
          exact absurd hw (by simp)
        | cons d ds =>
          obtain ⟨hcsp, hd⟩ := hRuns.1 hw
          rw [collapseAux_cons_ws_false hw]
          have hrec : collapseAux (d :: ds) true = d :: ds :=
            ih true hRuns.2 (lastOk_tail hLast) (fun _ => headOk_cons hd)
          rw [hrec, hcsp]
    · rw [collapseAux_cons_nonws (by simpa using hw)]
      have hrec : collapseAux cs false = cs :=
        ih false (runsOk_tail hRuns) (lastOk_tail hLast) (by intro h; exact absurd h (by simp))
      rw [hrec]

/-- Dropping leading whitespace from a list with a whitespace-free head is the
identity. -/
theorem dropWhile_eq_self_of_headOk {l : List Char} (h : HeadOk l) :
    List.dropWhile isWs l = l := by
  cases l with
  | nil => rfl
  | cons c cs =>
    have := h c (by simp)
    simp [List.dropWhile_cons, this]

/-- Trimming a list that already has whitespace-free ends is the identity. -/
theorem jsTrim_eq_self {l : List Char} (hh : HeadOk l) (hl : LastOk l) :
    jsTrimData l = l := by
  unfold jsTrimData
  rw [dropWhile_eq_self_of_headOk hh]
  have h2 : HeadOk l.reverse := by
    intro c hc
    rw [List.head?_reverse] at hc
    exact hl c hc
  rw [dropWhile_eq_self_of_headOk h2, List.reverse_reverse]

/-- The normalized form has whitespace-free ends and canonical runs. -/
theorem normalizeWsData_props (l : List Char) :
    HeadOk (normalizeWsData l) ∧ LastOk (normalizeWsData l) ∧ RunsOk (normalizeWsData l) :=
  ⟨headOk_collapseAux_false (headOk_jsTrim l),
   lastOk_collapseAux _ false (lastOk_jsTrim l),
   runsOk_collapseAux _ false⟩

/-- Whitespace normalization is idempotent on character lists. -/
theorem normalizeWsData_idem (l : List Char) :
    normalizeWsData (normalizeWsData l) = normalizeWsData l := by
  obtain ⟨hh, hl, hr⟩ := normalizeWsData_props l
  show collapseAux (jsTrimData (normalizeWsData l)) false = normalizeWsData l
  rw [jsTrim_eq_self hh hl]
  exact collapseAux_eq_self _ false hr hl (by intro h; exact absurd h (by simp))

/-- Dropping leading whitespace does not change the non-whitespace characters. -/
theorem filter_nonWs_dropWhile (l : List Char) :
    (List.dropWhile isWs l).filter nonWs = l.filter nonWs := by
  induction l with
  | nil => rfl
  | cons c cs ih =>
    by_cases hw : isWs c
    · have hn : nonWs c = false := by simp [nonWs, hw]
      simp [List.dropWhile_cons, hw, List.filter_cons, hn, ih]
    · simp [List.dropWhile_cons, hw]

/-- Trimming does not change the non-whitespace characters. -/
theorem filter_nonWs_jsTrim (l : List Char) :
    (jsTrimData l).filter nonWs = l.filter nonWs := by
  unfold jsTrimData
  rw [List.filter_reverse, filter_nonWs_dropWhile, List.filter_reverse,
    List.reverse_reverse, filter_nonWs_dropWhile]

/-- Whitespace collapse does not change the non-whitespace characters. -/
theorem filter_nonWs_collapseAux : ∀ (l : List Char) (b : Bool),
    (collapseAux l b).filter nonWs = l.filter nonWs := by
  intro l
  induction l with
  | nil => intro b; rfl
  | cons c cs ih =>
    intro b
    by_cases hw : isWs c
    · have hn : nonWs c = false := by simp [nonWs, hw]
      have hsp : nonWs ' ' = false := by simp [nonWs, isWs]
      cases b with
      | true =>
        rw [collapseAux_cons_ws_true hw]
        simp [List.filter_cons, hn, ih]
      | false =>
        rw [collapseAux_cons_ws_false hw]
        simp [List.filter_cons, hn, hsp, ih]
    · have hwf : isWs c = false := by simpa using hw
      have hn : nonWs c = true := by simp [nonWs, hwf]
      rw [collapseAux_cons_nonws hwf]
      simp [List.filter_cons, hn, ih]

/-- Whitespace normalization does not change the non-whitespace characters. -/
theorem filter_nonWs_normalizeWs (l : List Char) :
    (normalizeWsData l).filter nonWs = l.filter nonWs := by
  unfold normalizeWsData
  rw [filter_nonWs_collapseAux, filter_nonWs_jsTrim]

/-- A list containing a non-whitespace character normalizes to a non-empty
list. -/
theorem normalizeWsData_ne_nil {l : List Char} {c : Char}
    (hc : c ∈ l) (hw : isWs c = false) : normalizeWsData l ≠ [] := by
  intro h
  have hmem : c ∈ (normalizeWsData l).filter nonWs := by
    rw [filter_nonWs_normalizeWs]
    exact List.mem_filter.mpr ⟨hc, by simp [nonWs, hw]⟩
  rw [h] at hmem
  simp at hmem

/-- String-level idempotence of whitespace normalization. -/
theorem normalizeWs_idem (s : String) : normalizeWs (normalizeWs s) = normalizeWs s := by
  show String.mk (normalizeWsData (String.mk (normalizeWsData s.data)).data) =
    String.mk (normalizeWsData s.data)
  exact congrArg String.mk (normalizeWsData_idem s.data)

/-- A successful association-list lookup returns a pair of the list. -/
theorem lookup_pair_mem : ∀ (l : List (String × String)) (k v : String),
    l.lookup k = some v → (k, v) ∈ l := by
  intro l
  induction l with
  | nil => intro k v h; simp [List.lookup] at h
  | cons p t ih =>
    intro k v h
    obtain ⟨a, b⟩ := p
    by_cases hk : k == a
    · simp only [List.lookup, hk, Option.some.injEq] at h
      have : k = a := by simpa using hk
      simp [this, ← h]
    · simp only [List.lookup, hk] at h
      exact List.mem_cons_of_mem _ (ih k v h)

/-- Every alias value is itself normalized to itself. -/
theorem alias_values_fixed :
    ∀ p ∈ aliasTable, normalizeTechnicianName (some p.2) = p.2 := by decide

/-- Membership after a Set-style fold: an element is in the result exactly
when it is in the accumulator or in the remaining input. -/
theorem mem_foldl_insertUnique : ∀ (l acc : List String) (x : String),
    x ∈ l.foldl insertUnique acc ↔ x ∈ acc ∨ x ∈ l := by
  intro l
  induction l with
  | nil => intro acc x; simp
  | cons a t ih =>
    intro acc x
    by_cases ha : a ∈ acc
    · simp only [List.foldl_cons, insertUnique, if_pos ha, ih]
      constructor
      · rintro (h | h)
        · exact Or.inl h
        · exact Or.inr (List.mem_cons_of_mem _ h)
      · rintro (h | h)
        · exact Or.inl h
        · rcases List.mem_cons.mp h with h | h
          · exact Or.inl (h ▸ ha)
          · exact Or.inr h
    · simp only [List.foldl_cons, insertUnique, if_neg ha, ih]
      constructor
      · rintro (h | h)
        · rcases List.mem_append.mp h with h | h
          · exact Or.inl h
          · simp only [List.mem_singleton] at h
            exact Or.inr (h ▸ List.mem_cons_self a t)
        · exact Or.inr (List.mem_cons_of_mem _ h)
      · rintro (h | h)
        · exact Or.inl (List.mem_append.mpr (Or.inl h))
        · rcases List.mem_cons.mp h with h | h
          · exact Or.inl (List.mem_append.mpr (Or.inr (by simp [h])))
          · exact Or.inr h

/-- A Set-style fold keeps the accumulator free of duplicates. -/
theorem nodup_foldl_insertUnique : ∀ (l acc : List String),
    acc.Nodup → (l.foldl insertUnique acc).Nodup := by
  intro l
  induction l with
  | nil => intro acc h; simpa using h
  | cons a t ih =>
    intro acc h
    by_cases ha : a ∈ acc
    · simpa only [List.foldl_cons, insertUnique, if_pos ha] using ih acc h
    · have hstep : List.foldl insertUnique acc (a :: t) =
          List.foldl insertUnique (acc ++ [a]) t := by
        simp only [List.foldl_cons, insertUnique, if_neg ha]
      rw [hstep]
      refine ih (acc ++ [a]) ?_
      simp [List.nodup_append, h, ha]

/-- A Set-style fold produces a subsequence of the accumulator followed by
the scanned input. -/
theorem foldl_insertUnique_sublist : ∀ (l acc : List String),
    ∃ m, l.foldl insertUnique acc = acc ++ m ∧ m.Sublist l := by
  intro l
  induction l with
  | nil => intro acc; exact ⟨[], by simp, List.nil_sublist []⟩
  | cons a t ih =>
    intro acc
    by_cases ha : a ∈ acc
    · obtain ⟨m, hm, hs⟩ := ih acc
      exact ⟨m, by simpa only [List.foldl_cons, insertUnique, if_pos ha] using hm,
        List.Sublist.cons a hs⟩
    · obtain ⟨m, hm, hs⟩ := ih (acc ++ [a])
      refine ⟨a :: m, ?_, List.Sublist.cons₂ a hs⟩
      simp only [List.foldl_cons, insertUnique, if_neg ha, hm, List.append_assoc,
        List.singleton_append]

/-- Membership in a JS Set built from a list. -/
theorem mem_setInsertionOrder {l : List String} {x : String} :
    x ∈ setInsertionOrder l ↔ x ∈ l := by
  unfold setInsertionOrder
  rw [mem_foldl_insertUnique]
  simp

/-- A JS Set built from a list has no duplicate elements. -/
theorem nodup_setInsertionOrder (l : List String) : (setInsertionOrder l).Nodup :=
  nodup_foldl_insertUnique l [] List.nodup_nil

/-- A JS Set built from a list lists its elements in first-seen input order. -/
theorem setInsertionOrder_sublist (l : List String) : (setInsertionOrder l).Sublist l := by
  obtain ⟨m, hm, hs⟩ := foldl_insertUnique_sublist l []
  unfold setInsertionOrder
  rw [hm]
  simpa using hs

/-- Step equation of the sorted insertion at a cons cell. -/
theorem insertSorted_cons (s a : String) (t : List String) :
    insertSorted s (a :: t) = if strLt a s then a :: insertSorted s t else s :: a :: t := rfl

/-- Membership in an insertion-sorted list. -/
theorem mem_insertSorted : ∀ (l : List String) (s x : String),
    x ∈ insertSorted s l ↔ x = s ∨ x ∈ l := by
  intro l
  induction l with
  | nil => intro s x; simp [insertSorted]
  | cons a t ih =>
    intro s x
    rw [insertSorted_cons]
    by_cases h : strLt a s = true
    · rw [if_pos h]
      simp only [List.mem_cons, ih]
      tauto
    · rw [if_neg h]
      simp only [List.mem_cons]

/-- Sorting a list of strings does not change its members. -/
theorem mem_sortStrings {l : List String} {x : String} :
    x ∈ sortStrings l ↔ x ∈ l := by
  induction l with
  | nil => simp [sortStrings]
  | cons a t ih =>
    show x ∈ insertSorted a (sortStrings t) ↔ _
    rw [mem_insertSorted, ih]
    simp

/-- An opportunity survives cleaning exactly when its identity strings are
non-empty and its revenue is non-negative (the date test of the source is a
truthiness test on a Date object, which always passes). -/
theorem mem_cleanOpportunitiesData {l : List ProcessedOpportunity} {o : ProcessedOpportunity} :
    o ∈ cleanOpportunitiesData l ↔
      o ∈ l ∧ (o.jobId ≠ "" ∧ o.technician ≠ "" ∧ 0 ≤ o.revenue) := by
  unfold cleanOpportunitiesData
  rw [List.mem_filter]
  apply and_congr_right
  intro _
  by_cases h1 : o.jobId = "" ∨ o.technician = ""
  · rw [if_pos h1]
    simp only [Bool.false_eq_true, false_iff]
    rintro ⟨hj, ht, _⟩
    rcases h1 with h | h
    · exact hj h
    · exact ht h
  · rw [if_neg h1]
    by_cases h2 : o.revenue < 0
    · rw [if_pos h2]
      simp only [Bool.false_eq_true, false_iff]
      rintro ⟨_, _, hr⟩
      exact absurd h2 (not_lt.mpr hr)
    · rw [if_neg h2]
      constructor
      · intro _
        exact ⟨(not_or.mp h1).1, (not_or.mp h1).2, not_lt.mp h2⟩
      · intro _
        rfl

/-- A line item survives cleaning exactly when its identity strings are
non-empty, its price is non-negative and its quantity is strictly positive. -/
theorem mem_cleanLineItemsData {l : List ProcessedLineItem} {i : ProcessedLineItem} :
    i ∈ cleanLineItemsData l ↔
      i ∈ l ∧ (i.jobId ≠ "" ∧ i.technician ≠ "" ∧ 0 ≤ i.price ∧ 0 < i.quantity) := by
  unfold cleanLineItemsData
  rw [List.mem_filter]
  apply and_congr_right
  intro _
  by_cases h1 : i.jobId = "" ∨ i.technician = ""
  · rw [if_pos h1]
    simp only [Bool.false_eq_true, false_iff]
    rintro ⟨hj, ht, _⟩
    rcases h1 with h | h
    · exact hj h
    · exact ht h
  · rw [if_neg h1]
    by_cases h2 : i.price < 0
    · rw [if_pos h2]
      simp only [Bool.false_eq_true, false_iff]
      rintro ⟨_, _, hp, _⟩
      exact absurd h2 (not_lt.mpr hp)
    · rw [if_neg h2]
      by_cases h3 : i.quantity ≤ 0
      · rw [if_pos h3]
        simp only [Bool.false_eq_true, false_iff]
        rintro ⟨_, _, _, hq⟩
        exact absurd h3 (not_le.mpr hq)
      · rw [if_neg h3]
        constructor
        · intro _
          exact ⟨(not_or.mp h1).1, (not_or.mp h1).2, not_lt.mp h2, not_le.mp h3⟩
        · intro _
          rfl

/-- A job-time record survives cleaning exactly when its identity strings are
non-empty and its efficiency lies in the closed interval from 0 to 100. -/
theorem mem_cleanJobTimesData {l : List ProcessedJobTime} {j : ProcessedJobTime} :
    j ∈ cleanJobTimesData l ↔
      j ∈ l ∧ (j.jobId ≠ "" ∧ j.technician ≠ "" ∧ 0 ≤ j.jobEfficiency ∧ j.jobEfficiency ≤ 100) := by
  unfold cleanJobTimesData
  rw [List.mem_filter]
  apply and_congr_right
  intro _
  by_cases h1 : j.jobId = "" ∨ j.technician = ""
  · rw [if_pos h1]
    simp only [Bool.false_eq_true, false_iff]
    rintro ⟨hj, ht, _⟩
    rcases h1 with h | h
    · exact hj h
    · exact ht h
  · rw [if_neg h1]
    by_cases h2 : j.jobEfficiency < 0 ∨ j.jobEfficiency > 100
    · rw [if_pos h2]
      simp only [Bool.false_eq_true, false_iff]
      rintro ⟨_, _, he0, he1⟩
      rcases h2 with h | h
      · exact absurd h (not_lt.mpr he0)
      · exact absurd h (not_lt.mpr he1)
    · rw [if_neg h2]
      constructor
      · intro _
        exact ⟨(not_or.mp h1).1, (not_or.mp h1).2,
          not_lt.mp (not_or.mp h2).1, not_lt.mp (not_or.mp h2).2⟩
      · intro _
        rfl

/-- An appointment survives cleaning exactly when its identity strings are
non-empty and its revenue is non-negative. -/
theorem mem_cleanAppointmentsData {l : List ProcessedAppointment} {a : ProcessedAppointment} :
    a ∈ cleanAppointmentsData l ↔
      a ∈ l ∧ (a.jobId ≠ "" ∧ a.technician ≠ "" ∧ 0 ≤ a.revenue) := by
  unfold cleanAppointmentsData
  rw [List.mem_filter]
  apply and_congr_right
  intro _
  by_cases h1 : a.jobId = "" ∨ a.technician = ""
  · rw [if_pos h1]
    simp only [Bool.false_eq_true, false_iff]
    rintro ⟨hj, ht, _⟩
    rcases h1 with h | h
    · exact hj h
    · exact ht h
  · rw [if_neg h1]
    by_cases h2 : a.revenue < 0
    · rw [if_pos h2]
      simp only [Bool.false_eq_true, false_iff]
      rintro ⟨_, _, hr⟩
      exact absurd h2 (not_lt.mpr hr)
    · rw [if_neg h2]
      constructor
      · intro _
        exact ⟨(not_or.mp h1).1, (not_or.mp h1).2, not_lt.mp h2⟩
      · intro _
        rfl

/-- Membership in the technician-and-week opportunity filter. -/
theorem mem_filterTechOpportunities {technician : String}
    {l : List ProcessedOpportunity} {weekStart weekEnd : Int} {o : ProcessedOpportunity} :
    o ∈ filterTechOpportunities technician l weekStart weekEnd ↔
      o ∈ l ∧ o.technician = technician ∧ weekStart ≤ o.date ∧ o.date ≤ weekEnd := by
  unfold filterTechOpportunities isDateInWeekRange
  rw [List.mem_filter]
  simp [Bool.and_eq_true, beq_iff_eq, decide_eq_true_eq, and_assoc]

/-- Membership in the technician-and-week line item filter. -/
theorem mem_filterTechLineItems {technician : String}
    {l : List ProcessedLineItem} {weekStart weekEnd : Int} {i : ProcessedLineItem} :
    i ∈ filterTechLineItems technician l weekStart weekEnd ↔
      i ∈ l ∧ i.technician = technician ∧ weekStart ≤ i.invoiceDate ∧ i.invoiceDate ≤ weekEnd := by
  unfold filterTechLineItems isDateInWeekRange
  rw [List.mem_filter]
  simp [Bool.and_eq_true, beq_iff_eq, decide_eq_true_eq, and_assoc]

/-- Membership in the technician-and-week job-time filter. -/
theorem mem_filterTechJobTimes {technician : String}
    {l : List ProcessedJobTime} {weekStart weekEnd : Int} {j : ProcessedJobTime} :
    j ∈ filterTechJobTimes technician l weekStart weekEnd ↔
      j ∈ l ∧ j.technician = technician ∧ weekStart ≤ j.firstAppointment ∧
        j.firstAppointment ≤ weekEnd := by
  unfold filterTechJobTimes isDateInWeekRange
  rw [List.mem_filter]
  simp [Bool.and_eq_true, beq_iff_eq, decide_eq_true_eq, and_assoc]

/-- Membership in the technician-and-week appointment filter. -/
theorem mem_filterTechAppointments {technician : String}
    {l : List ProcessedAppointment} {weekStart weekEnd : Int} {a : ProcessedAppointment} :
    a ∈ filterTechAppointments technician l weekStart weekEnd ↔
      a ∈ l ∧ a.technician = technician ∧ weekStart ≤ a.scheduledFor ∧
        a.scheduledFor ≤ weekEnd := by
  unfold filterTechAppointments isDateInWeekRange
  rw [List.mem_filter]
  simp [Bool.and_eq_true, beq_iff_eq, decide_eq_true_eq, and_assoc]

/-- A ratio of a count over a larger positive count, scaled to a percentage,
lies between 0 and 100. -/
theorem ratio_mul_100_bounds (a b : ℕ) (hab : a ≤ b) (hb : 0 < b) :
    0 ≤ ((a : ℚ) / (b : ℚ)) * 100 ∧ ((a : ℚ) / (b : ℚ)) * 100 ≤ 100 := by
  have hb0 : (0 : ℚ) < (b : ℚ) := by exact_mod_cast hb
  constructor
  · positivity
  · have h1 : (a : ℚ) / (b : ℚ) ≤ 1 := by
      rw [div_le_one hb0]
      exact_mod_cast hab
    calc ((a : ℚ) / (b : ℚ)) * 100 ≤ 1 * 100 :=
          mul_le_mul_of_nonneg_right h1 (by norm_num)
      _ = 100 := by norm_num

/-- The average ticket value is non-negative on non-negative revenues. -/
theorem calculateAverageTicketValue_nonneg {opps : List ProcessedOpportunity}
    {appts : List ProcessedAppointment}
    (ho : ∀ o ∈ opps, 0 ≤ o.revenue) (ha : ∀ a ∈ appts, 0 ≤ a.revenue) :
    0 ≤ calculateAverageTicketValue opps appts := by
  simp only [calculateAverageTicketValue]
  split
  · exact le_refl 0
  · apply div_nonneg
    · rw [foldl_add_map, foldl_add_map, zero_add, zero_add]
      apply add_nonneg
      · apply List.sum_nonneg
        intro x hx
        obtain ⟨o, ho2, rfl⟩ := List.mem_map.mp hx
        exact ho o ho2
      · apply List.sum_nonneg
        intro x hx
        obtain ⟨a, ha2, rfl⟩ := List.mem_map.mp hx
        exact ha a ha2
    · positivity

/-- The job close rate always lies between 0 and 100. -/
theorem calculateJobCloseRate_bounds (opps : List ProcessedOpportunity) :
    0 ≤ calculateJobCloseRate opps ∧ calculateJobCloseRate opps ≤ 100 := by
  simp only [calculateJobCloseRate]
  split
  · norm_num
  · next h =>
    exact ratio_mul_100_bounds _ _ (List.length_filter_le _ _) (Nat.pos_of_ne_zero h)

/-- The membership win rate always lies between 0 and 100. -/
theorem calculateMembershipWinRate_bounds (opps : List ProcessedOpportunity) :
    0 ≤ calculateMembershipWinRate opps ∧ calculateMembershipWinRate opps ≤ 100 := by
  simp only [calculateMembershipWinRate]
  split
  · norm_num
  · next h =>
    exact ratio_mul_100_bounds _ _ (List.length_filter_le _ _) (Nat.pos_of_ne_zero h)

/-- The weekly revenue is non-negative on non-negative revenues. -/
theorem calculateWeeklyRevenue_nonneg {opps : List ProcessedOpportunity}
    {appts : List ProcessedAppointment}
    (ho : ∀ o ∈ opps, 0 ≤ o.revenue) (ha : ∀ a ∈ appts, 0 ≤ a.revenue) :
    0 ≤ calculateWeeklyRevenue opps appts := by
  simp only [calculateWeeklyRevenue]
  rw [foldl_add_map, foldl_add_map, zero_add, zero_add]
  apply add_nonneg
  · apply List.sum_nonneg
    intro x hx
    obtain ⟨o, ho2, rfl⟩ := List.mem_map.mp hx
    exact ho o ho2
  · apply List.sum_nonneg
    intro x hx
    obtain ⟨a, ha2, rfl⟩ := List.mem_map.mp hx
    exact ha a ha2

/-- The job efficiency KPI is non-negative, and is at most 100 when every
input efficiency is at most 100. -/
theorem calculateJobEfficiency_bounds {jts : List ProcessedJobTime}
    (h100 : ∀ j ∈ jts, j.jobEfficiency ≤ 100) :
    0 ≤ calculateJobEfficiency jts ∧ calculateJobEfficiency jts ≤ 100 := by
  simp only [calculateJobEfficiency, List.length_map]
  split
  · norm_num
  · next hlen =>
    have hlenQ : 0 < ((jts.filter (fun job => 0 < job.jobEfficiency)).length : ℚ) := by
      exact_mod_cast Nat.pos_of_ne_zero hlen
    have hmemsrc : ∀ x ∈ (jts.filter (fun job => 0 < job.jobEfficiency)).map (·.jobEfficiency),
        0 < x ∧ x ≤ 100 := by
      intro x hx
      obtain ⟨j, hj, rfl⟩ := List.mem_map.mp hx
      have hj2 := List.mem_filter.mp hj
      refine ⟨by simpa using hj2.2, h100 j hj2.1⟩
    rw [foldl_add_map, zero_add, List.map_id']
    constructor
    · apply div_nonneg
      · apply List.sum_nonneg
        intro x hx
        exact le_of_lt (hmemsrc x hx).1
      · exact le_of_lt hlenQ
    · rw [div_le_iff₀ hlenQ]
      have hsum := List.sum_le_card_nsmul
        ((jts.filter (fun job => 0 < job.jobEfficiency)).map (·.jobEfficiency)) 100
        (fun x hx => (hmemsrc x hx).2)
      rw [nsmul_eq_mul, List.length_map] at hsum
      linarith

/-- C1: for every technician and week window, calculateTechnicianKPIs returns
an averageTicketValue equal to the summed revenues of the filtered
opportunities and appointments divided by the count of filtered Won
opportunities plus filtered Completed appointments, and returns exactly 0
whenever that count is 0. -/
theorem claim_C1 (technician : String) (opportunities : List ProcessedOpportunity)
    (lineItems : List ProcessedLineItem) (jobTimes : List ProcessedJobTime)
    (appointments : List ProcessedAppointment) (weekStart weekEnd : Int) :
    (calculateTechnicianKPIs technician opportunities lineItems jobTimes appointments
        weekStart weekEnd).averageTicketValue =
      (let filteredOpps := filterTechOpportunities technician opportunities weekStart weekEnd
       let filteredAppts := filterTechAppointments technician appointments weekStart weekEnd
       let completedCount := filteredOpps.countP (fun o => o.status == "Won") +
         filteredAppts.countP (fun a => a.apptStatus == "Completed")
       if completedCount = 0 then 0
       else ((filteredOpps.map (·.revenue)).sum + (filteredAppts.map (·.revenue)).sum) /
         (completedCount : ℚ)) := by
  show calculateAverageTicketValue
      (filterTechOpportunities technician opportunities weekStart weekEnd)
      (filterTechAppointments technician appointments weekStart weekEnd) = _
  simp only [calculateAverageTicketValue, List.countP_eq_length_filter]
  split
  · rfl
  · rw [foldl_add_map, foldl_add_map, zero_add, zero_add]

/-- C2: each per-source cleaning function retains a record exactly when its
identity fields are non-empty and its numeric-range invariants hold: negative
revenue or price excludes, non-positive quantity excludes, and an efficiency
outside the interval from 0 to 100 excludes. The date fields of the processed
records are Date objects and are always truthy, so they never reject. -/
theorem claim_C2 :
    (∀ (l : List ProcessedOpportunity) (o : ProcessedOpportunity),
      o ∈ cleanOpportunitiesData l ↔
        o ∈ l ∧ (o.jobId ≠ "" ∧ o.technician ≠ "" ∧ 0 ≤ o.revenue)) ∧
    (∀ (l : List ProcessedLineItem) (i : ProcessedLineItem),
      i ∈ cleanLineItemsData l ↔
        i ∈ l ∧ (i.jobId ≠ "" ∧ i.technician ≠ "" ∧ 0 ≤ i.price ∧ 0 < i.quantity)) ∧
    (∀ (l : List ProcessedJobTime) (j : ProcessedJobTime),
      j ∈ cleanJobTimesData l ↔
        j ∈ l ∧ (j.jobId ≠ "" ∧ j.technician ≠ "" ∧
          0 ≤ j.jobEfficiency ∧ j.jobEfficiency ≤ 100)) ∧
    (∀ (l : List ProcessedAppointment) (a : ProcessedAppointment),
      a ∈ cleanAppointmentsData l ↔
        a ∈ l ∧ (a.jobId ≠ "" ∧ a.technician ≠ "" ∧ 0 ≤ a.revenue)) :=
  ⟨fun _ _ => mem_cleanOpportunitiesData, fun _ _ => mem_cleanLineItemsData,
   fun _ _ => mem_cleanJobTimesData, fun _ _ => mem_cleanAppointmentsData⟩

/-- C3: the KPI date filter is a closed interval on the source date field:
both interval ends are included, a date strictly past the end is excluded,
and membership in each of the four filtered collections is exactly technician
equality together with the closed-interval date test. -/
theorem claim_C3 :
    (∀ weekStart weekEnd : Int, weekStart ≤ weekEnd →
      isDateInWeekRange weekEnd weekStart weekEnd = true ∧
      isDateInWeekRange weekStart weekStart weekEnd = true) ∧
    (∀ d weekStart weekEnd : Int, weekEnd < d →
      isDateInWeekRange d weekStart weekEnd = false) ∧
    (∀ (technician : String) (l : List ProcessedOpportunity) (weekStart weekEnd : Int)
        (o : ProcessedOpportunity),
      o ∈ filterTechOpportunities technician l weekStart weekEnd ↔
        o ∈ l ∧ o.technician = technician ∧ weekStart ≤ o.date ∧ o.date ≤ weekEnd) ∧
    (∀ (technician : String) (l : List ProcessedLineItem) (weekStart weekEnd : Int)
        (i : ProcessedLineItem),
      i ∈ filterTechLineItems technician l weekStart weekEnd ↔
        i ∈ l ∧ i.technician = technician ∧ weekStart ≤ i.invoiceDate ∧
          i.invoiceDate ≤ weekEnd) ∧
    (∀ (technician : String) (l : List ProcessedJobTime) (weekStart weekEnd : Int)
        (j : ProcessedJobTime),
      j ∈ filterTechJobTimes technician l weekStart weekEnd ↔
        j ∈ l ∧ j.technician = technician ∧ weekStart ≤ j.firstAppointment ∧
          j.firstAppointment ≤ weekEnd) ∧
    (∀ (technician : String) (l : List ProcessedAppointment) (weekStart weekEnd : Int)
        (a : ProcessedAppointment),
      a ∈ filterTechAppointments technician l weekStart weekEnd ↔
        a ∈ l ∧ a.technician = technician ∧ weekStart ≤ a.scheduledFor ∧
          a.scheduledFor ≤ weekEnd) := by
  refine ⟨?_, ?_, ?_, ?_, ?_, ?_⟩
  · intro weekStart weekEnd h
    constructor <;> simp [isDateInWeekRange, h]
  · intro d weekStart weekEnd h
    simp [isDateInWeekRange, not_le.mpr h]
  · intro technician l weekStart weekEnd o
    exact mem_filterTechOpportunities
  · intro technician l weekStart weekEnd i
    exact mem_filterTechLineItems
  · intro technician l weekStart weekEnd j
    exact mem_filterTechJobTimes
  · intro technician l weekStart weekEnd a
    exact mem_filterTechAppointments

/-- Witness for C3 at a concrete week: the end day is in, the start day is
in, and the day after the end is out. -/
theorem claim_C3_witness :
    isDateInWeekRange 7 0 7 = true ∧ isDateInWeekRange 0 0 7 = true ∧
      isDateInWeekRange 8 0 7 = false :=
  ⟨(claim_C3.1 0 7 (by decide)).1, (claim_C3.1 0 7 (by decide)).2,
   claim_C3.2.1 8 0 7 (by decide)⟩

/-- C4: calculateAllTechnicianKPIs returns one record per distinct technician
name in the first-seen order of a Set filled across opportunities, lineItems,
jobTimes, then appointments; at a concrete input this order differs from the
lexicographically sorted order the integrator uses for technicianNames. -/
theorem claim_C4 (opportunities : List ProcessedOpportunity)
    (lineItems : List ProcessedLineItem) (jobTimes : List ProcessedJobTime)
    (appointments : List ProcessedAppointment) (weekStart weekEnd : Int) :
    (let allNames := opportunities.map (·.technician) ++ lineItems.map (·.technician) ++
       jobTimes.map (·.technician) ++ appointments.map (·.technician)
     ((calculateAllTechnicianKPIs opportunities lineItems jobTimes appointments weekStart
         weekEnd).map (fun k => k.technician) = setInsertionOrder allNames) ∧
     (setInsertionOrder allNames).Nodup ∧
     (setInsertionOrder allNames).Sublist allNames ∧
     (∀ t, t ∈ setInsertionOrder allNames ↔ t ∈ allNames)) ∧
    ((calculateAllTechnicianKPIs [sampleOpportunity "B", sampleOpportunity "A"] [] [] [] 0
        0).map (fun k => k.technician) = ["B", "A"] ∧
     extractTechnicianNames [sampleOpportunity "B", sampleOpportunity "A"] [] [] [] =
       ["A", "B"]) := by
  constructor
  · refine ⟨?_, nodup_setInsertionOrder _, setInsertionOrder_sublist _,
      fun t => mem_setInsertionOrder⟩
    simp only [calculateAllTechnicianKPIs, List.map_map]
    have hcomp : ∀ a ∈ setInsertionOrder
        (opportunities.map (·.technician) ++ lineItems.map (·.technician) ++
         jobTimes.map (·.technician) ++ appointments.map (·.technician)),
        ((fun k : TechnicianKPIs => k.technician) ∘ fun technician =>
          calculateTechnicianKPIs technician opportunities lineItems jobTimes appointments
            weekStart weekEnd) a = (fun t => t) a := fun a _ => rfl
    rw [List.map_congr_left hcomp, List.map_id']
  · exact ⟨by decide, by decide⟩

/-- C5: the jobEfficiency KPI is the arithmetic mean of the efficiencies of
exactly the records with strictly positive efficiency, 0 when there is none;
zero efficiencies are excluded from numerator and denominator, so the
efficiencies 0, 50 and 100 average to 75. -/
theorem claim_C5 :
    (∀ jobTimes : List ProcessedJobTime,
      calculateJobEfficiency jobTimes =
        (let qualifying := jobTimes.filter (fun job => 0 < job.jobEfficiency)
         if qualifying.length = 0 then 0
         else (qualifying.map (·.jobEfficiency)).sum / (qualifying.length : ℚ))) ∧
    calculateJobEfficiency [sampleJobTime 0, sampleJobTime 50, sampleJobTime 100] = 75 := by
  constructor
  · intro jobTimes
    simp only [calculateJobEfficiency, List.length_map]
    split
    · rfl
    · rw [foldl_add_map, zero_add, List.map_id']
  · have hfilter : List.filter (fun job => 0 < job.jobEfficiency)
        [sampleJobTime 0, sampleJobTime 50, sampleJobTime 100] =
        [sampleJobTime 50, sampleJobTime 100] := by decide
    simp only [calculateJobEfficiency, hfilter, sampleJobTime, List.map_cons, List.map_nil,
      List.length_cons, List.length_nil, List.foldl_cons, List.foldl_nil]
    norm_num

/-- C6: an absent file handle never fails the integration: each absent source
yields the empty cleaned collection in the returned data, and a name is in
the technician universe exactly when some record of one of the four returned
cleaned collections carries it, so technicians appearing only in absent
sources are absent from the result. -/
theorem claim_C6 (files : UploadedFiles) :
    ((files.opportunities = none → (processAndIntegrateFiles files).opportunities = []) ∧
     (files.lineItems = none → (processAndIntegrateFiles files).lineItems = []) ∧
     (files.jobTimes = none → (processAndIntegrateFiles files).jobTimes = []) ∧
     (files.appointments = none → (processAndIntegrateFiles files).appointments = [])) ∧
    (∀ t : String, t ∈ (processAndIntegrateFiles files).technicianNames ↔
      ((∃ o ∈ (processAndIntegrateFiles files).opportunities, o.technician = t) ∨
       (∃ i ∈ (processAndIntegrateFiles files).lineItems, i.technician = t) ∨
       (∃ j ∈ (processAndIntegrateFiles files).jobTimes, j.technician = t) ∨
       (∃ a ∈ (processAndIntegrateFiles files).appointments, a.technician = t))) := by
  constructor
  · refine ⟨fun h => ?_, fun h => ?_, fun h => ?_, fun h => ?_⟩
    · simp [processAndIntegrateFiles, h, cleanOpportunitiesData]
    · simp [processAndIntegrateFiles, h, cleanLineItemsData]
    · simp [processAndIntegrateFiles, h, cleanJobTimesData]
    · simp [processAndIntegrateFiles, h, cleanAppointmentsData]
  · intro t
    simp only [processAndIntegrateFiles]
    rw [extractTechnicianNames, mem_sortStrings, mem_setInsertionOrder]
    simp only [List.mem_append, List.mem_map]
    constructor
    · rintro (((⟨o, ho, rfl⟩ | ⟨i, hi, rfl⟩) | ⟨j, hj, rfl⟩) | ⟨a, ha, rfl⟩)
      · exact Or.inl ⟨o, ho, rfl⟩
      · exact Or.inr (Or.inl ⟨i, hi, rfl⟩)
      · exact Or.inr (Or.inr (Or.inl ⟨j, hj, rfl⟩))
      · exact Or.inr (Or.inr (Or.inr ⟨a, ha, rfl⟩))
    · rintro (⟨o, ho, rfl⟩ | ⟨i, hi, rfl⟩ | ⟨j, hj, rfl⟩ | ⟨a, ha, rfl⟩)
      · exact Or.inl (Or.inl (Or.inl ⟨o, ho, rfl⟩))
      · exact Or.inl (Or.inl (Or.inr ⟨i, hi, rfl⟩))
      · exact Or.inl (Or.inr ⟨j, hj, rfl⟩)
      · exact Or.inr ⟨a, ha, rfl⟩

/-- Witness for C6: with only the line items file present, the other three
cleaned collections are empty, and the technician of the line item is in the
universe. -/
theorem claim_C6_witness :
    (processAndIntegrateFiles sampleFilesMissingOpps).opportunities = [] ∧
    (processAndIntegrateFiles sampleFilesMissingOpps).jobTimes = [] ∧
    (processAndIntegrateFiles sampleFilesMissingOpps).appointments = [] ∧
    ("Only In LineItems" ∈ (processAndIntegrateFiles sampleFilesMissingOpps).technicianNames ↔
      ((∃ o ∈ (processAndIntegrateFiles sampleFilesMissingOpps).opportunities,
          o.technician = "Only In LineItems") ∨
       (∃ i ∈ (processAndIntegrateFiles sampleFilesMissingOpps).lineItems,
          i.technician = "Only In LineItems") ∨
       (∃ j ∈ (processAndIntegrateFiles sampleFilesMissingOpps).jobTimes,
          j.technician = "Only In LineItems") ∨
       (∃ a ∈ (processAndIntegrateFiles sampleFilesMissingOpps).appointments,
          a.technician = "Only In LineItems"))) :=
  ⟨(claim_C6 sampleFilesMissingOpps).1.1 rfl,
   (claim_C6 sampleFilesMissingOpps).1.2.2.1 rfl,
   (claim_C6 sampleFilesMissingOpps).1.2.2.2 rfl,
   (claim_C6 sampleFilesMissingOpps).2 "Only In LineItems"⟩

/-- C7: normalizeTechnicianName yields the sentinel on null and on the empty
string; otherwise it trims, collapses each internal whitespace run to one
space (preserving the non-whitespace characters in order and producing a
form with whitespace-free ends and single internal spaces), maps the result
through the fixed alias table, and returns unmapped names unchanged. -/
theorem claim_C7 :
    normalizeTechnicianName none = "Unknown Technician" ∧
    normalizeTechnicianName (some "") = "Unknown Technician" ∧
    normalizeTechnicianName (some "Aaron") = "Aaron McDaniel" ∧
    normalizeTechnicianName (some "  Jake   H ") = "Jake Harter" ∧
    (∀ s : String, s ≠ "" →
      normalizeTechnicianName (some s) =
        (aliasTable.lookup (normalizeWs s)).getD (normalizeWs s)) ∧
    (∀ s : String, s ≠ "" → aliasTable.lookup (normalizeWs s) = none →
      normalizeTechnicianName (some s) = normalizeWs s) ∧
    (∀ s : String,
      (normalizeWs s).data.filter nonWs = s.data.filter nonWs ∧
      HeadOk (normalizeWs s).data ∧ LastOk (normalizeWs s).data ∧
      RunsOk (normalizeWs s).data) := by
  refine ⟨by decide, by decide, by decide, by decide, ?_, ?_, ?_⟩
  · intro s hs
    simp [normalizeTechnicianName, hs]
  · intro s hs hl
    simp [normalizeTechnicianName, hs, hl]
  · intro s
    refine ⟨filter_nonWs_normalizeWs s.data, ?_, ?_, ?_⟩
    · exact (normalizeWsData_props s.data).1
    · exact (normalizeWsData_props s.data).2.1
    · exact (normalizeWsData_props s.data).2.2

/-- Witness for C7: a name that is not in the alias table passes through
unchanged once whitespace is normalized. -/
theorem claim_C7_witness :
    normalizeTechnicianName (some "Bob Smith") = normalizeWs "Bob Smith" :=
  claim_C7.2.2.2.2.2.1 "Bob Smith" (by decide) (by decide)

/-- C8 as stated is false: a whitespace-only string normalizes to the empty
string, and re-normalizing the empty string yields the sentinel. -/
theorem claim_C8_counterexample :
    ¬ (normalizeTechnicianName (some (normalizeTechnicianName (some " "))) =
      normalizeTechnicianName (some " ")) := by decide

/-- C8 amended: normalizeTechnicianName is idempotent on every string that
is empty or contains a non-whitespace character (every input except the
non-empty all-whitespace strings); the sentinel and every alias value are
fixed points. -/
theorem claim_C8_amended :
    (∀ s : String, (s = "" ∨ ∃ c ∈ s.data, isWs c = false) →
      normalizeTechnicianName (some (normalizeTechnicianName (some s))) =
        normalizeTechnicianName (some s)) ∧
    normalizeTechnicianName (some "Unknown Technician") = "Unknown Technician" ∧
    (∀ p ∈ aliasTable, normalizeTechnicianName (some p.2) = p.2) := by
  refine ⟨?_, by decide, alias_values_fixed⟩
  intro s h
  rcases h with rfl | ⟨c, hc, hw⟩
  · decide
  · have hs : s ≠ "" := by
      intro he
      rw [he] at hc
      simp at hc
    have hstep : normalizeTechnicianName (some s) =
        (aliasTable.lookup (normalizeWs s)).getD (normalizeWs s) := by
      simp [normalizeTechnicianName, hs]
    cases hl : aliasTable.lookup (normalizeWs s) with
    | some v =>
      rw [hstep, hl]
      exact alias_values_fixed (normalizeWs s, v) (lookup_pair_mem aliasTable _ _ hl)
    | none =>
      rw [hstep, hl]
      show normalizeTechnicianName (some (normalizeWs s)) = normalizeWs s
      have hrne : normalizeWs s ≠ "" := by
        intro he
        have : normalizeWsData s.data = [] := congrArg String.data he
        exact normalizeWsData_ne_nil hc hw this
      have hfix : normalizeWs (normalizeWs s) = normalizeWs s := normalizeWs_idem s
      simp [normalizeTechnicianName, hrne, hfix, hl]

/-- Witness for C8 amended: idempotence at a concrete aliased name. -/
theorem claim_C8_amended_witness :
    normalizeTechnicianName (some (normalizeTechnicianName (some "Aaron"))) =
      normalizeTechnicianName (some "Aaron") :=
  claim_C8_amended.1 "Aaron" (Or.inr ⟨'A', by decide, by decide⟩)

/-- C9: a Quantity cell that is not a native number and whose string form
does not parse to a nonzero integer (absent cells and the literal string 0
included) gets quantity 1, so the cleaner's strict positivity check on the
quantity never rejects such a record, while unparsable currency, percentage
and duration values default to 0. -/
theorem claim_C9 (s : String) :
    lineItemQuantity CellVal.missing = 1 ∧
    lineItemQuantity (CellVal.str "0") = 1 ∧
    (jsParseInt s = none ∨ jsParseInt s = some 0 →
      lineItemQuantity (CellVal.str s) = 1) ∧
    (∀ item : ProcessedLineItem, item.jobId ≠ "" → item.technician ≠ "" →
      0 ≤ item.price → item.quantity = 1 → item ∈ cleanLineItemsData [item]) ∧
    (jsParseFloat (stripCurrencySymbols s) = none ∨
        jsParseFloat (stripCurrencySymbols s) = some 0 →
      parseCurrency (some s) = 0) ∧
    (jsParseFloat (stripPercentChars s) = none ∨
        jsParseFloat (stripPercentChars s) = some 0 →
      parsePercentage (some s) = 0) ∧
    (timeSearch s.data = none → parseTimeToMinutes (some s) = 0) := by
  refine ⟨by decide, by decide, ?_, ?_, ?_, ?_, ?_⟩
  · rintro (h | h) <;> simp [lineItemQuantity, parseIntOrOne, h]
  · intro item hj ht hp hq
    rw [mem_cleanLineItemsData]
    refine ⟨by simp, hj, ht, hp, ?_⟩
    rw [hq]
    norm_num
  · intro h
    by_cases hse : s = ""
    · simp [parseCurrency, hse]
    · rcases h with h | h <;> simp [parseCurrency, hse, h]
  · intro h
    by_cases hse : s = ""
    · simp [parsePercentage, hse]
    · rcases h with h | h <;> simp [parsePercentage, hse, h]
  · intro h
    by_cases hse : s = ""
    · simp [parseTimeToMinutes, hse]
    · simp [parseTimeToMinutes, hse, h]

/-- Witness for C9 on concrete unparsable text and a concrete defaulted
line item. -/
theorem claim_C9_witness :
    lineItemQuantity (CellVal.str "abc") = 1 ∧
    parseCurrency (some "abc") = 0 ∧
    parseTimeToMinutes (some "abc") = 0 ∧
    sampleLineItem "T" ∈ cleanLineItemsData [sampleLineItem "T"] :=
  ⟨(claim_C9 "abc").2.2.1 (Or.inl (by decide)),
   (claim_C9 "abc").2.2.2.2.1 (Or.inl (by decide)),
   (claim_C9 "abc").2.2.2.2.2.2 (by decide),
   (claim_C9 "abc").2.2.2.1 (sampleLineItem "T") (by decide) (by decide) (by decide) (by decide)⟩

/-- C10: on inputs satisfying the cleaned-data invariants, every numeric
field of the returned TechnicianKPIs is non-negative and the three rate
fields are at most 100. -/
theorem claim_C10 (technician : String) (opportunities : List ProcessedOpportunity)
    (lineItems : List ProcessedLineItem) (jobTimes : List ProcessedJobTime)
    (appointments : List ProcessedAppointment) (weekStart weekEnd : Int)
    (hOpps : ∀ o ∈ opportunities, 0 ≤ o.revenue)
    (_hItems : ∀ i ∈ lineItems, 0 ≤ i.price ∧ 0 < i.quantity)
    (hTimes : ∀ j ∈ jobTimes, 0 ≤ j.jobEfficiency ∧ j.jobEfficiency ≤ 100)
    (hAppts : ∀ a ∈ appointments, 0 ≤ a.revenue) :
    (let r := calculateTechnicianKPIs technician opportunities lineItems jobTimes
       appointments weekStart weekEnd
     0 ≤ r.averageTicketValue ∧
     (0 ≤ r.jobCloseRate ∧ r.jobCloseRate ≤ 100) ∧
     0 ≤ r.weeklyRevenue ∧
     (0 ≤ r.jobEfficiency ∧ r.jobEfficiency ≤ 100) ∧
     (0 ≤ r.membershipWinRate ∧ r.membershipWinRate ≤ 100) ∧
     0 ≤ r.hydroJettingJobsSold ∧
     0 ≤ r.descalingJobsSold ∧
     0 ≤ r.waterHeaterJobsSold) := by
  have hOppsF : ∀ o ∈ filterTechOpportunities technician opportunities weekStart weekEnd,
      0 ≤ o.revenue := fun o ho => hOpps o (mem_filterTechOpportunities.mp ho).1
  have hApptsF : ∀ a ∈ filterTechAppointments technician appointments weekStart weekEnd,
      0 ≤ a.revenue := fun a ha => hAppts a (mem_filterTechAppointments.mp ha).1
  have hTimesF : ∀ j ∈ filterTechJobTimes technician jobTimes weekStart weekEnd,
      j.jobEfficiency ≤ 100 := fun j hj => (hTimes j (mem_filterTechJobTimes.mp hj).1).2
  refine ⟨?_, ?_, ?_, ?_, ?_, ?_, ?_, ?_⟩
  · exact calculateAverageTicketValue_nonneg hOppsF hApptsF
  · exact calculateJobCloseRate_bounds _
  · exact calculateWeeklyRevenue_nonneg hOppsF hApptsF
  · exact calculateJobEfficiency_bounds hTimesF
  · exact calculateMembershipWinRate_bounds _
  · exact Nat.cast_nonneg _
  · exact Nat.cast_nonneg _
  · exact Nat.cast_nonneg _

/-- Witness for C10 at the empty dataset: all populations are empty and all
KPIs default to values within the stated bounds. -/
theorem claim_C10_witness :
    0 ≤ (calculateTechnicianKPIs "T" [] [] [] [] 0 0).averageTicketValue ∧
    (0 ≤ (calculateTechnicianKPIs "T" [] [] [] [] 0 0).jobCloseRate ∧
      (calculateTechnicianKPIs "T" [] [] [] [] 0 0).jobCloseRate ≤ 100) ∧
    0 ≤ (calculateTechnicianKPIs "T" [] [] [] [] 0 0).weeklyRevenue ∧
    (0 ≤ (calculateTechnicianKPIs "T" [] [] [] [] 0 0).jobEfficiency ∧
      (calculateTechnicianKPIs "T" [] [] [] [] 0 0).jobEfficiency ≤ 100) ∧
    (0 ≤ (calculateTechnicianKPIs "T" [] [] [] [] 0 0).membershipWinRate ∧
      (calculateTechnicianKPIs "T" [] [] [] [] 0 0).membershipWinRate ≤ 100) ∧
    0 ≤ (calculateTechnicianKPIs "T" [] [] [] [] 0 0).hydroJettingJobsSold ∧
    0 ≤ (calculateTechnicianKPIs "T" [] [] [] [] 0 0).descalingJobsSold ∧
    0 ≤ (calculateTechnicianKPIs "T" [] [] [] [] 0 0).waterHeaterJobsSold :=
  claim_C10 "T" [] [] [] [] 0 0 (by simp) (by simp) (by simp) (by simp)

/-- Witness for C2: a concrete well-formed opportunity is retained, and a
concrete negative-revenue opportunity is dropped. -/
theorem claim_C2_witness :
    sampleOpportunity "T" ∈ cleanOpportunitiesData [sampleOpportunity "T"] ∧
    ¬ ({ sampleOpportunity "T" with revenue := -5 } ∈
        cleanOpportunitiesData [{ sampleOpportunity "T" with revenue := -5 }]) :=
  ⟨(claim_C2.1 [sampleOpportunity "T"] (sampleOpportunity "T")).mpr
      ⟨by decide, by decide, by decide, by decide⟩,
   fun h => absurd ((claim_C2.1 _ _).mp h).2.2.2 (by decide)⟩
